import Mathlib

/-!
Verification of the parameter-shuttling engine in `src/ShuttleAutomation.h`
(`CapturedParameters` and its four operations Reset / Visit / Get / Set).

Embedding choices, following §9 of the design notes:
* the variadic template parameter pack becomes a runtime ordered list of
  tagged descriptor variants (`Parameter.scalar` / `Parameter.enum`);
* the member-pointer storage locator becomes a field index (`mem : Nat`)
  into the owning settings structure, which is a list of values;
* scalar value kinds are represented uniformly by integers (the claims
  under verification only concern assignment, bounds and control flow,
  which are identical across the scalar kinds);
* the optional post-processing hook is an optional pure function
  `Params → Bool → Params × Bool` (new structure, returned flag);
* `EffectType::FetchParameters` returning a possibly null pointer becomes
  an `Option Params` field of `Effect`;
* the unchecked symbol-table indexing in the enum overload of `GetOne`
  is modelled by `Option`: `none` marks the out-of-bounds access that is
  undefined behavior in the C++ source.
-/

namespace ShuttleAutomation

/-- Scalar parameter descriptor: storage locator (field index), external
key, declared default, minimum, maximum and scale (from the class template
`EffectParameter` used by the scalar overloads in `ShuttleAutomation.h`;
`def_` renders the C++ field `def`). -/
structure EffectParameter where
  mem : Nat
  key : String
  def_ : Int
  min : Int
  max : Int
  scale : Int
deriving DecidableEq, Repr

/-- Enumeration parameter descriptor: storage locator, key, default index
and the ordered symbol table of (internal name, display name) pairs (from
`EnumParameter`; `nSymbols` is `symbols.length`). -/
structure EnumParameter where
  mem : Nat
  key : String
  def_ : Int
  symbols : List (String × String)
deriving DecidableEq, Repr

/-- One element of the descriptor pack: the engine dispatches on scalar
versus enumeration descriptors (the two overload families of `VisitOne`,
`GetOne`, `SetOne`). -/
inductive Parameter where
| scalar : EffectParameter → Parameter
| enum : EnumParameter → Parameter
deriving DecidableEq, Repr

/-- Storage locator of a descriptor of either kind. -/
def Parameter.mem : Parameter → Nat
| .scalar p => p.mem
| .enum p => p.mem

/-- External key of a descriptor of either kind. -/
def Parameter.key : Parameter → String
| .scalar p => p.key
| .enum p => p.key

/-- Declared default of a descriptor of either kind. -/
def Parameter.def_ : Parameter → Int
| .scalar p => p.def_
| .enum p => p.def_

/-- The owning settings structure: the ordered fields the storage locators
index into. -/
abbrev Params := List Int

/-- A value held by the textual key/value store: a number (scalar kinds)
or a string (enumeration internal names).  A scalar read of a `.str`
entry, or an enum read of a `.num` entry, is a parse failure. -/
inductive ParamValue where
| num : Int → ParamValue
| str : String → ParamValue
deriving DecidableEq, Repr

/-- Modelled from the spec: the class `CommandParameters` (the textual
key/value store, declared in `Shuttle.h` which is not part of the sources)
is modelled as an association list with at most the two primitives of §6:
`Write` and the two `ReadAndVerify` overloads. -/
abbrev CommandParameters := List (String × ParamValue)

/-- First value stored under a key, if any. -/
def lookupKey : CommandParameters → String → Option ParamValue
| [], _ => none
| kv :: rest, k => if kv.1 = k then some kv.2 else lookupKey rest k

/-- Remove every entry stored under a key. -/
def eraseKey : CommandParameters → String → CommandParameters
| [], _ => []
| kv :: rest, k => if kv.1 = k then eraseKey rest k else kv :: eraseKey rest k

/-- Number of entries stored under a key. -/
def countKey : CommandParameters → String → Nat
| [], _ => 0
| kv :: rest, k => (if kv.1 = k then 1 else 0) + countKey rest k

/-- Modelled from the spec: `CommandParameters::Write` stores a value under
a key, overwriting any pre-existing entry under the same key. -/
def Write (parms : CommandParameters) (k : String) (v : ParamValue) :
    CommandParameters :=
  (k, v) :: eraseKey parms k

/-- Index of the first symbol whose internal name matches, if any. -/
def findInternal : List (String × String) → String → Option Nat
| [], _ => none
| e :: rest, s => if e.1 = s then some 0 else (findInternal rest s).map (· + 1)

/-- Modelled from the spec: the scalar `CommandParameters::ReadAndVerify`
overload.  The stored value must parse as a number and lie within
`[min, max]`; otherwise the out-value falls back to the default and the
read fails. -/
def ReadAndVerify (parms : CommandParameters) (k : String)
    (dflt vmin vmax : Int) : Bool × Int :=
  match lookupKey parms k with
  | some (.num v) => if vmin ≤ v ∧ v ≤ vmax then (true, v) else (false, dflt)
  | _ => (false, dflt)

/-- Modelled from the spec: the enumeration `CommandParameters::ReadAndVerify`
overload.  The stored value must be a string matching one of the symbol
table's internal names; the out-value is the matching index, or the default
on failure. -/
def ReadAndVerifyEnum (parms : CommandParameters) (k : String) (dflt : Int)
    (symbols : List (String × String)) : Bool × Int :=
  match lookupKey parms k with
  | some (.str s) =>
    match findInternal symbols s with
    | some i => (true, (i : Int))
    | none => (false, dflt)
  | _ => (false, dflt)

/-- The effect, reduced to what the engine sees of it: `FetchParameters`
either yields the owning settings structure or nothing. -/
structure Effect where
  params? : Option Params
deriving DecidableEq, Repr

/-- A `CapturedParameters` instance: the descriptor pack (the non-type
template arguments `Parameters...`) and the optional post-set function. -/
structure CapturedParameters where
  Parameters : List Parameter
  PostSetFn : Option (Params → Bool → Params × Bool)

/-- A concrete `SettingsVisitor`: visitor state of type `σ`, a `Define`
operation receiving the field's current value, key, default, min, max and
scale and yielding the new state and (possibly overwritten) field value,
and `DefineEnum` receiving the index, key, default, symbol table and count. -/
structure SettingsVisitor (σ : Type) where
  Define : σ → Int → String → Int → Int → Int → Int → σ × Int
  DefineEnum : σ → Int → String → Int → List (String × String) → Nat → σ × Int

/-- `ResetOne`: one assignment of the default value. -/
def ResetOne (s : Params) : Parameter → Params
| .scalar p => s.set p.mem p.def_
| .enum p => s.set p.mem p.def_

/-- The fold of `ResetOne` over the descriptor pack, in declaration order. -/
def applyDefaults (ps : List Parameter) (s : Params) : Params :=
  ps.foldl ResetOne s

/-- `DoReset`: assign every default, then call the post-set function (if
any) with the update flag false, ignoring its returned flag. -/
def DoReset (hook : Option (Params → Bool → Params × Bool)) (ps : List Parameter)
    (s : Params) : Params :=
  let s1 := applyDefaults ps s
  match hook with
  | none => s1
  | some f => (f s1 false).1

/-- `CapturedParameters::Reset`: fetch the owning structure and reset it;
a missing structure is a silent no-op. -/
def Reset (cp : CapturedParameters) (e : Effect) : Effect :=
  match e.params? with
  | none => e
  | some s => { e with params? := some (DoReset cp.PostSetFn cp.Parameters s) }

/-- `VisitOne`: dispatch one descriptor to the visitor's `Define` or
`DefineEnum`, passing the live field so the visitor can overwrite it. -/
def VisitOne {σ : Type} (S : SettingsVisitor σ) (st : σ × Params) :
    Parameter → σ × Params
| .scalar p =>
  let r := S.Define st.1 (st.2.getD p.mem 0) p.key p.def_ p.min p.max p.scale
  (r.1, st.2.set p.mem r.2)
| .enum p =>
  let r := S.DefineEnum st.1 (st.2.getD p.mem 0) p.key p.def_ p.symbols
    p.symbols.length
  (r.1, st.2.set p.mem r.2)

/-- `DoVisit`: the fold of `VisitOne` over the pack, in declaration order. -/
def DoVisit {σ : Type} (S : SettingsVisitor σ) (ps : List Parameter)
    (st : σ × Params) : σ × Params :=
  ps.foldl (VisitOne S) st

/-- `CapturedParameters::Visit`: fetch the owning structure and drive the
visitor across it; a missing structure is a silent no-op. -/
def Visit {σ : Type} (cp : CapturedParameters) (e : Effect)
    (S : SettingsVisitor σ) (v : σ) : Effect × σ :=
  match e.params? with
  | none => (e, v)
  | some s =>
    let r := DoVisit S cp.Parameters (v, s)
    ({ e with params? := some r.2 }, r.1)

/-- Internal name of the symbol at a stored enum index; `none` models the
undefined behavior of the unchecked indexing
`param.symbols[structure.*(param.mem)]` when the stored value is not a
valid index. -/
def enumName? (symbols : List (String × String)) (v : Int) : Option String :=
  if h : 0 ≤ v ∧ v.toNat < symbols.length then
    some (symbols.get ⟨v.toNat, h.2⟩).1
  else none

/-- `GetOne`: serialize one variable — scalars as their current value, enum
variables as the internal name of the stored index, not the number. -/
def GetOne (s : Params) (parms : CommandParameters) :
    Parameter → Option CommandParameters
| .scalar p => some (Write parms p.key (.num (s.getD p.mem 0)))
| .enum p =>
  (enumName? p.symbols (s.getD p.mem 0)).map fun n =>
    Write parms p.key (.str n)

/-- `DoGet`: the fold of `GetOne` over the pack, in declaration order.  The
owning structure is only read (it is not part of the result). -/
def DoGet (s : Params) (ps : List Parameter) (parms : CommandParameters) :
    Option CommandParameters :=
  match ps with
  | [] => some parms
  | p :: rest =>
    match GetOne s parms p with
    | none => none
    | some parms1 => DoGet s rest parms1

/-- `CapturedParameters::Get`: fetch the owning structure (read-only) and
serialize it into the store; a missing structure is a silent no-op. -/
def Get (cp : CapturedParameters) (e : Effect) (parms : CommandParameters) :
    Option CommandParameters :=
  match e.params? with
  | none => some parms
  | some s => DoGet s cp.Parameters parms

/-- `SetOne`: deserialize and assign one variable, or fail leaving the
structure untouched.  The result flag is the flag of the matching
`ReadAndVerify` overload. -/
def SetOne (s : Params) (parms : CommandParameters) : Parameter → Bool × Params
| .scalar p =>
  let r := ReadAndVerify parms p.key p.def_ p.min p.max
  if r.1 then (true, s.set p.mem r.2) else (false, s)
| .enum p =>
  let r := ReadAndVerifyEnum parms p.key p.def_ p.symbols
  if r.1 then (true, s.set p.mem r.2) else (false, s)

/-- Whether `SetOne` would succeed on a descriptor — independent of the
current structure state, since `ReadAndVerify` reads only the store. -/
def SetOneOK (parms : CommandParameters) : Parameter → Bool
| .scalar p => (ReadAndVerify parms p.key p.def_ p.min p.max).1
| .enum p => (ReadAndVerifyEnum parms p.key p.def_ p.symbols).1

/-- The left-to-right short-circuit fold
`(SetOne(structure, parms, Parameters) && ...)` of `DoSet`. -/
def SetAll (s : Params) (parms : CommandParameters) :
    List Parameter → Bool × Params
| [] => (true, s)
| p :: rest =>
  let r := SetOne s parms p
  if r.1 then SetAll r.2 parms rest else (false, r.2)

/-- The structure after the assignments of a descriptor list, ignoring
flags (used to describe the partially mutated state). -/
def SetList (s : Params) (parms : CommandParameters)
    (ps : List Parameter) : Params :=
  ps.foldl (fun t q => (SetOne t parms q).2) s

/-- `DoSet`: the short-circuit fold over the pack; when every field
succeeded, the post-set function (if any) is called with the update flag
true and its flag becomes the overall result, else the result is true. -/
def DoSet (hook : Option (Params → Bool → Params × Bool)) (s : Params)
    (parms : CommandParameters) (ps : List Parameter) : Bool × Params :=
  let r := SetAll s parms ps
  if r.1 then
    match hook with
    | none => (true, r.2)
    | some f =>
      let h := f r.2 true
      (h.2, h.1)
  else (false, r.2)

/-- `CapturedParameters::Set`: fetch the owning structure and deserialize
into it; a missing structure makes `Set` return false. -/
def Set (cp : CapturedParameters) (e : Effect) (parms : CommandParameters) :
    Bool × Effect :=
  match e.params? with
  | none => (false, e)
  | some s =>
    let r := DoSet cp.PostSetFn s parms cp.Parameters
    (r.1, { e with params? := some r.2 })

/-- The flag and out-value of the `ReadAndVerify` overload matching a
descriptor's kind. -/
def ReadValue (parms : CommandParameters) : Parameter → Bool × Int
| .scalar p => ReadAndVerify parms p.key p.def_ p.min p.max
| .enum p => ReadAndVerifyEnum parms p.key p.def_ p.symbols

/-- The store value `GetOne` writes for a descriptor: the current scalar
value, or the internal name of the stored enum index. -/
def writtenValue (s : Params) : Parameter → ParamValue
| .scalar p => .num (s.getD p.mem 0)
| .enum p => .str (p.symbols.getD (s.getD p.mem 0).toNat ("", "")).1

/-- Whether the structure's stored value for an enum descriptor is a valid
index into its symbol table (trivially true for scalars): the precondition
under which the unchecked indexing of the enum `GetOne` is in bounds. -/
def EnumValid (s : Params) : Parameter → Bool
| .scalar _ => true
| .enum p => decide (0 ≤ s.getD p.mem 0 ∧ (s.getD p.mem 0).toNat < p.symbols.length)

/-- Whether a scalar descriptor's current field value lies within its
declared bounds (trivially true for enums). -/
def InBounds (s : Params) : Parameter → Bool
| .scalar p => decide (p.min ≤ s.getD p.mem 0 ∧ s.getD p.mem 0 ≤ p.max)
| .enum _ => true

/-- Whether an enum descriptor's symbol table has pairwise distinct
internal names (trivially true for scalars). -/
def SymbolsNodup : Parameter → Bool
| .scalar _ => true
| .enum p => decide (p.symbols.map Prod.fst).Nodup

/-- The default of the last descriptor in the list whose storage locator is
the given field index, if any: the value that survives the in-order default
assignments of `DoReset`. -/
def lastDef? : List Parameter → Nat → Option Int
| [], _ => none
| p :: ps, n =>
  match lastDef? ps n with
  | some d => some d
  | none => if p.mem = n then some p.def_ else none

/-- The failure condition of a `Set` read, in the spec's words: for a
scalar descriptor, no stored number under the key lies within
`[min, max]` (covering a missing or non-numeric entry, which does not
parse); for an enum descriptor, no stored string under the key matches an
internal name of the symbol table (covering a missing or numeric entry). -/
def ParamInvalid (parms : CommandParameters) : Parameter → Prop
| .scalar p => ∀ v : Int,
    lookupKey parms p.key = some (.num v) → ¬(p.min ≤ v ∧ v ≤ p.max)
| .enum p => ∀ str : String,
    lookupKey parms p.key = some (.str str) → ∀ e ∈ p.symbols, e.1 ≠ str

/-! ### Association-list store lemmas -/

theorem lookupKey_eraseKey_ne (k k' : String) (h : k' ≠ k) :
    ∀ parms : CommandParameters,
      lookupKey (eraseKey parms k) k' = lookupKey parms k'
| [] => rfl
| kv :: rest => by
  by_cases hk : kv.1 = k
  · have hne : k ≠ k' := fun hh => h hh.symm
    simp [eraseKey, hk, lookupKey, hne, lookupKey_eraseKey_ne k k' h rest]
  · simp only [eraseKey, hk, if_false, lookupKey]
    by_cases hk' : kv.1 = k'
    · simp [hk']
    · simp [hk', lookupKey_eraseKey_ne k k' h rest]

theorem countKey_eraseKey_self (k : String) :
    ∀ parms : CommandParameters, countKey (eraseKey parms k) k = 0
| [] => rfl
| kv :: rest => by
  by_cases hk : kv.1 = k
  · simp [eraseKey, hk, countKey_eraseKey_self k rest]
  · simp [eraseKey, hk, countKey, countKey_eraseKey_self k rest]

theorem countKey_eraseKey_ne (k k' : String) (h : k' ≠ k) :
    ∀ parms : CommandParameters,
      countKey (eraseKey parms k) k' = countKey parms k'
| [] => rfl
| kv :: rest => by
  by_cases hk : kv.1 = k
  · have hne : k ≠ k' := fun hh => h hh.symm
    simp [eraseKey, hk, countKey, hne, countKey_eraseKey_ne k k' h rest]
  · simp [eraseKey, hk, countKey, countKey_eraseKey_ne k k' h rest]

theorem lookupKey_write_self (parms : CommandParameters) (k : String)
    (v : ParamValue) : lookupKey (Write parms k v) k = some v := by
  simp [Write, lookupKey]

theorem lookupKey_write_ne (parms : CommandParameters) (k k' : String)
    (v : ParamValue) (h : k' ≠ k) :
    lookupKey (Write parms k v) k' = lookupKey parms k' := by
  simp [Write, lookupKey, Ne.symm h, lookupKey_eraseKey_ne k k' h parms]

theorem countKey_write_self (parms : CommandParameters) (k : String)
    (v : ParamValue) : countKey (Write parms k v) k = 1 := by
  simp [Write, countKey, countKey_eraseKey_self k parms]

theorem countKey_write_ne (parms : CommandParameters) (k k' : String)
    (v : ParamValue) (h : k' ≠ k) :
    countKey (Write parms k v) k' = countKey parms k' := by
  simp [Write, countKey, Ne.symm h, countKey_eraseKey_ne k k' h parms]

/-! ### List field lemmas -/

theorem set_getD_self : ∀ (l : List Int) (n : Nat), l.set n (l.getD n 0) = l
| [], _ => rfl
| _ :: _, 0 => by simp [List.set, List.getD]
| a :: l, n + 1 => by
  simp only [List.set, List.getD, List.get?, List.cons.injEq, true_and]
  have := set_getD_self l n
  simpa [List.getD] using this

theorem findInternal_get :
    ∀ (symbols : List (String × String)) (i : Nat) (h : i < symbols.length),
      (symbols.map Prod.fst).Nodup →
      findInternal symbols (symbols.get ⟨i, h⟩).1 = some i
| e :: _, 0, _, _ => by simp [findInternal]
| e :: rest, i + 1, h, hnodup => by
  have h' : i < rest.length := Nat.lt_of_succ_lt_succ h
  have hmem : (rest.get ⟨i, h'⟩).1 ∈ rest.map Prod.fst :=
    List.mem_map_of_mem Prod.fst (rest.get_mem i h')
  have hne : ¬ (e.1 = (rest.get ⟨i, h'⟩).1) := by
    intro hh
    exact (List.nodup_cons.mp hnodup).1 (hh ▸ hmem)
  have hrec := findInternal_get rest i h' (List.nodup_cons.mp hnodup).2
  have hget : ((e :: rest).get ⟨i + 1, h⟩) = rest.get ⟨i, h'⟩ := rfl
  rw [hget]
  simp only [findInternal]
  rw [if_neg hne, hrec]
  rfl

/-! ### Set-path lemmas -/

theorem SetOne_eq (s : Params) (parms : CommandParameters) (p : Parameter) :
    SetOne s parms p =
      if (ReadValue parms p).1 then (true, s.set p.mem (ReadValue parms p).2)
      else (false, s) := by
  cases p <;> rfl

theorem SetOne_fst (s : Params) (parms : CommandParameters) (p : Parameter) :
    (SetOne s parms p).1 = SetOneOK parms p := by
  cases p <;> simp [SetOne, SetOneOK] <;> split <;> simp_all

theorem SetOneOK_eq (parms : CommandParameters) (p : Parameter) :
    SetOneOK parms p = (ReadValue parms p).1 := by
  cases p <;> rfl

theorem SetOne_fail (s : Params) (parms : CommandParameters) (p : Parameter)
    (h : SetOneOK parms p = false) : SetOne s parms p = (false, s) := by
  rw [SetOne_eq, if_neg]
  rw [SetOneOK_eq] at h
  simp [h]

theorem SetOne_snd_get? (s : Params) (parms : CommandParameters)
    (p : Parameter) (m : Nat) (h : p.mem ≠ m) :
    ((SetOne s parms p).2).get? m = s.get? m := by
  rw [SetOne_eq]
  split
  · exact List.get?_set_ne _ _ h
  · rfl

theorem SetList_nil (s : Params) (parms : CommandParameters) :
    SetList s parms [] = s := rfl

theorem SetList_cons (s : Params) (parms : CommandParameters) (p : Parameter)
    (ps : List Parameter) :
    SetList s parms (p :: ps) = SetList (SetOne s parms p).2 parms ps := rfl

theorem SetList_get? (parms : CommandParameters) (m : Nat) :
    ∀ (ps : List Parameter) (s : Params), (∀ q ∈ ps, q.mem ≠ m) →
      (SetList s parms ps).get? m = s.get? m
| [], _, _ => rfl
| p :: ps, s, h => by
  rw [SetList_cons, SetList_get? parms m ps _ fun q hq => h q (.tail p hq)]
  exact SetOne_snd_get? s parms p m (h p (.head ps))

theorem SetAll_fst_all (parms : CommandParameters) :
    ∀ (ps : List Parameter) (s : Params), (SetAll s parms ps).1 = true →
      ∀ p ∈ ps, SetOneOK parms p = true
| [], _, _ => by simp
| p :: ps, s, h => by
  intro q hq
  by_cases hp : (SetOne s parms p).1 = true
  · rcases List.mem_cons.mp hq with rfl | hq'
    · rw [← SetOne_fst s parms q]; exact hp
    · refine SetAll_fst_all parms ps (SetOne s parms p).2 ?_ q hq'
      simpa [SetAll, hp] using h
  · exfalso
    have hfalse : (SetOne s parms p).1 = false := by simpa using hp
    simp [SetAll, hfalse] at h

theorem SetAll_all_ok (parms : CommandParameters) :
    ∀ (ps : List Parameter) (s : Params),
      (∀ p ∈ ps, SetOneOK parms p = true) →
      SetAll s parms ps = (true, SetList s parms ps)
| [], _, _ => rfl
| p :: ps, s, h => by
  have hp : (SetOne s parms p).1 = true := by
    rw [SetOne_fst]; exact h p (.head ps)
  simp only [SetAll, hp, if_true, SetList_cons]
  exact SetAll_all_ok parms ps _ fun q hq => h q (.tail p hq)

theorem SetAll_append_fail (parms : CommandParameters) (p : Parameter)
    (hp : SetOneOK parms p = false) :
    ∀ (pre : List Parameter) (s : Params),
      (∀ q ∈ pre, SetOneOK parms q = true) → ∀ post : List Parameter,
      SetAll s parms (pre ++ p :: post) = (false, SetList s parms pre)
| [], s, _, post => by
  have h1 : (SetOne s parms p).1 = false := by rw [SetOne_fst]; exact hp
  have h2 := SetOne_fail s parms p hp
  simp [SetAll, h1, h2, SetList_nil]
| q :: pre, s, hpre, post => by
  have hq : (SetOne s parms q).1 = true := by
    rw [SetOne_fst]; exact hpre q (.head pre)
  simp only [List.cons_append, SetAll, hq, if_true, SetList_cons]
  exact SetAll_append_fail parms p hp pre _
    (fun r hr => hpre r (.tail q hr)) post

/-! ### Reset-path lemmas -/

theorem ResetOne_eq (s : Params) (p : Parameter) :
    ResetOne s p = s.set p.mem p.def_ := by
  cases p <;> rfl

theorem applyDefaults_nil (s : Params) : applyDefaults [] s = s := rfl

theorem applyDefaults_cons (p : Parameter) (ps : List Parameter) (s : Params) :
    applyDefaults (p :: ps) s = applyDefaults ps (ResetOne s p) := rfl

theorem applyDefaults_length :
    ∀ (ps : List Parameter) (s : Params),
      (applyDefaults ps s).length = s.length
| [], _ => rfl
| p :: ps, s => by
  rw [applyDefaults_cons, applyDefaults_length ps, ResetOne_eq,
    List.length_set]

theorem lastDef?_eq_none :
    ∀ (ps : List Parameter) (n : Nat),
      lastDef? ps n = none ↔ ∀ p ∈ ps, p.mem ≠ n
| [], n => by simp [lastDef?]
| p :: ps, n => by
  rw [lastDef?]
  constructor
  · intro h q hq
    rcases List.mem_cons.mp hq with rfl | hq'
    · intro hm
      rcases hrec : lastDef? ps n with _ | d
      · simp [hrec, hm] at h
      · simp [hrec] at h
    · rcases hrec : lastDef? ps n with _ | d
      · exact ((lastDef?_eq_none ps n).mp hrec) q hq'
      · simp [hrec] at h
  · intro h
    have h1 : lastDef? ps n = none :=
      (lastDef?_eq_none ps n).mpr fun q hq => h q (.tail p hq)
    simp [h1, h p (.head ps)]

theorem applyDefaults_get? :
    ∀ (ps : List Parameter) (s : Params) (n : Nat),
      (applyDefaults ps s).get? n =
        match lastDef? ps n with
        | some d => if n < s.length then some d else none
        | none => s.get? n
| [], s, n => by simp [applyDefaults_nil, lastDef?]
| p :: ps, s, n => by
  rw [applyDefaults_cons, applyDefaults_get? ps, ResetOne_eq, lastDef?]
  rcases hrec : lastDef? ps n with _ | d
  · simp only [hrec]
    by_cases hm : p.mem = n
    · subst hm
      by_cases hlt : p.mem < s.length
      · simp [List.length_set, hlt, List.get?_set_eq_of_lt _ hlt]
      · rw [List.set_eq_of_length_le (Nat.le_of_not_lt hlt)]
        simp [List.length_set, hlt,
          List.get?_eq_none.mpr (Nat.le_of_not_lt hlt)]
        exact Nat.le_of_not_lt hlt
    · simp only [if_neg hm]
      exact List.get?_set_ne _ _ hm
  · simp [hrec, List.length_set]

theorem applyDefaults_idem (ps : List Parameter) (s : Params) :
    applyDefaults ps (applyDefaults ps s) = applyDefaults ps s := by
  apply List.ext_get?
  intro n
  rw [applyDefaults_get?, applyDefaults_get?, applyDefaults_length]
  rcases hrec : lastDef? ps n with _ | d
  · simp [applyDefaults_get?, hrec]
  · rfl

/-! ### Get-path lemmas -/

theorem GetOne_valid (s : Params) (parms : CommandParameters) (p : Parameter)
    (h : EnumValid s p = true) :
    GetOne s parms p = some (Write parms p.key (writtenValue s p)) := by
  cases p with
  | scalar q => rfl
  | enum q =>
    have h' : 0 ≤ s.getD q.mem 0 ∧
        (s.getD q.mem 0).toNat < q.symbols.length := by
      simpa [EnumValid] using h
    simp only [GetOne, enumName?, dif_pos h', Option.map_some']
    rw [writtenValue, List.getD_eq_get q.symbols ("", "") h'.2]
    rfl

theorem GetOne_some_shape (s : Params) (parms : CommandParameters)
    (p : Parameter) (parms1 : CommandParameters)
    (h : GetOne s parms p = some parms1) :
    ∃ w, parms1 = Write parms p.key w := by
  cases p with
  | scalar q =>
    exact ⟨.num (s.getD q.mem 0), (Option.some.inj h).symm⟩
  | enum q =>
    simp only [GetOne, Option.map_eq_some'] at h
    obtain ⟨n, _, hw⟩ := h
    exact ⟨.str n, hw.symm⟩

theorem DoGet_frame (s : Params) :
    ∀ (ps : List Parameter) (parms st : CommandParameters),
      DoGet s ps parms = some st →
      ∀ k : String, (∀ p ∈ ps, p.key ≠ k) →
        lookupKey st k = lookupKey parms k ∧ countKey st k = countKey parms k
| [], parms, st, h, k, _ => by
  obtain rfl : parms = st := Option.some.inj h
  exact ⟨rfl, rfl⟩
| p :: ps, parms, st, h, k, hk => by
  simp only [DoGet] at h
  rcases hg : GetOne s parms p with _ | parms1
  · rw [hg] at h; cases h
  · rw [hg] at h
    obtain ⟨w, rfl⟩ := GetOne_some_shape s parms p parms1 hg
    have ih := DoGet_frame s ps _ st h k fun q hq => hk q (.tail p hq)
    have hkp : k ≠ p.key := fun hh => hk p (.head ps) hh.symm
    exact ⟨ih.1.trans (lookupKey_write_ne parms p.key k w hkp),
      ih.2.trans (countKey_write_ne parms p.key k w hkp)⟩

theorem DoGet_isSome (s : Params) :
    ∀ (ps : List Parameter) (parms : CommandParameters),
      (∀ p ∈ ps, EnumValid s p = true) →
      ∃ st, DoGet s ps parms = some st
| [], parms, _ => ⟨parms, rfl⟩
| p :: ps, parms, h => by
  have hp := GetOne_valid s parms p (h p (.head ps))
  obtain ⟨st, hst⟩ := DoGet_isSome s ps
    (Write parms p.key (writtenValue s p)) fun q hq => h q (.tail p hq)
  exact ⟨st, by simp only [DoGet, hp]; exact hst⟩

theorem DoGet_lookup (s : Params) :
    ∀ (ps : List Parameter) (parms st : CommandParameters),
      (ps.map Parameter.key).Nodup →
      (∀ p ∈ ps, EnumValid s p = true) →
      DoGet s ps parms = some st →
      ∀ p ∈ ps, lookupKey st p.key = some (writtenValue s p) ∧
        countKey st p.key = 1
| [], _, _, _, _, _ => by intro p hp; cases hp
| p0 :: ps, parms, st, hnodup, hvalid, h => by
  have hg := GetOne_valid s parms p0 (hvalid p0 (.head ps))
  simp only [DoGet, hg] at h
  intro p hp
  rcases List.mem_cons.mp hp with rfl | hp'
  · have hnotin : ∀ q ∈ ps, q.key ≠ p.key := by
      intro q hq hh
      refine (List.nodup_cons.mp hnodup).1 ?_
      rw [← hh]
      exact List.mem_map_of_mem Parameter.key hq
    have hframe := DoGet_frame s ps _ st h p.key hnotin
    exact ⟨hframe.1.trans (lookupKey_write_self parms p.key _),
      hframe.2.trans (countKey_write_self parms p.key _)⟩
  · exact DoGet_lookup s ps _ st (List.nodup_cons.mp hnodup).2
      (fun q hq => hvalid q (.tail p0 hq)) h p hp'

/-! ### Round-trip read-back lemmas -/

theorem ReadValue_roundtrip (s : Params) (st : CommandParameters)
    (p : Parameter) (hl : lookupKey st p.key = some (writtenValue s p))
    (hvalid : EnumValid s p = true) (hnames : SymbolsNodup p = true)
    (hbounds : InBounds s p = true) :
    ReadValue st p = (true, s.getD p.mem 0) := by
  cases p with
  | scalar q =>
    have hb : q.min ≤ s.getD q.mem 0 ∧ s.getD q.mem 0 ≤ q.max := by
      simpa [InBounds] using hbounds
    simp only [Parameter.key, writtenValue] at hl
    simp only [ReadValue, ReadAndVerify, hl, Parameter.mem]
    rw [if_pos hb]
  | enum q =>
    have hv : 0 ≤ s.getD q.mem 0 ∧
        (s.getD q.mem 0).toNat < q.symbols.length := by
      simpa [EnumValid] using hvalid
    have hn : (q.symbols.map Prod.fst).Nodup := by
      simpa [SymbolsNodup] using hnames
    simp only [Parameter.key, writtenValue] at hl
    simp only [ReadValue, ReadAndVerifyEnum, hl, Parameter.mem]
    rw [List.getD_eq_get q.symbols ("", "") hv.2,
      findInternal_get q.symbols _ hv.2 hn]
    exact congrArg (fun v => ((true : Bool), v)) (Int.toNat_of_nonneg hv.1)

theorem SetAll_roundtrip (st : CommandParameters) :
    ∀ (ps : List Parameter) (s : Params),
      (∀ p ∈ ps, ReadValue st p = (true, s.getD p.mem 0)) →
      SetAll s st ps = (true, s)
| [], _, _ => rfl
| p :: ps, s, h => by
  have h1 : SetOne s st p = (true, s) := by
    rw [SetOne_eq, h p (.head ps)]
    show (true, s.set p.mem (s.getD p.mem 0)) = (true, s)
    rw [set_getD_self]
  simp [SetAll, h1, SetAll_roundtrip st ps s fun q hq => h q (.tail p hq)]

/-! ### Failure characterization lemmas -/

theorem findInternal_eq_none (str : String) :
    ∀ symbols : List (String × String),
      (∀ e ∈ symbols, e.1 ≠ str) → findInternal symbols str = none
| [], _ => rfl
| e :: rest, h => by
  simp [findInternal, h e (.head rest),
    findInternal_eq_none str rest fun e' he' => h e' (.tail e he')]

theorem ReadValue_invalid (parms : CommandParameters) (p : Parameter)
    (h : ParamInvalid parms p) : ReadValue parms p = (false, p.def_) := by
  cases p with
  | scalar q =>
    simp only [ReadValue, ReadAndVerify, Parameter.def_]
    rcases hl : lookupKey parms q.key with _ | val
    · rfl
    · cases val with
      | num v =>
        show (if q.min ≤ v ∧ v ≤ q.max then ((true : Bool), v)
          else (false, q.def_)) = (false, q.def_)
        rw [if_neg (h v hl)]
      | str _ => rfl
  | enum q =>
    simp only [ReadValue, ReadAndVerifyEnum, Parameter.def_]
    rcases hl : lookupKey parms q.key with _ | val
    · rfl
    · cases val with
      | num _ => rfl
      | str a =>
        show (match findInternal q.symbols a with
          | some i => ((true : Bool), (i : Int))
          | none => (false, q.def_)) = (false, q.def_)
        rw [findInternal_eq_none a q.symbols (h a hl)]

theorem DoSet_fst_of_fail (hook : Option (Params → Bool → Params × Bool))
    (s : Params) (parms : CommandParameters) (ps : List Parameter)
    (p : Parameter) (hmem : p ∈ ps) (hOK : SetOneOK parms p = false) :
    (DoSet hook s parms ps).1 = false := by
  rcases hr : SetAll s parms ps with ⟨b, s'⟩
  cases b with
  | true =>
    have := SetAll_fst_all parms ps s (by rw [hr]) p hmem
    rw [hOK] at this
    cases this
  | false => cases hook <;> simp [DoSet, hr]

theorem lastDef?_of_nodup :
    ∀ (ps : List Parameter) (p : Parameter), p ∈ ps →
      (ps.map Parameter.mem).Nodup → lastDef? ps p.mem = some p.def_
| q :: rest, p, hp, hnodup => by
  rcases List.mem_cons.mp hp with rfl | hp'
  · have hnone : lastDef? rest p.mem = none := by
      refine (lastDef?_eq_none rest p.mem).mpr fun r hr hh => ?_
      exact (List.nodup_cons.mp hnodup).1
        (hh ▸ List.mem_map_of_mem Parameter.mem hr)
    simp [lastDef?, hnone]
  · have hrec := lastDef?_of_nodup rest p hp' (List.nodup_cons.mp hnodup).2
    simp [lastDef?, hrec]

theorem getD_of_get? (l : List Int) (n : Nat) (d a : Int)
    (h : l.get? n = some a) : l.getD n d = a := by
  rw [List.getD_eq_getElem?_getD, ← List.get?_eq_getElem?, h]
  rfl

/-! ### Claim theorems -/

/-- C1: `DoSet` validates the descriptors strictly in declaration order and
stops at the first field whose read-and-verify fails, returning false; the
resulting structure is exactly the fold of the assignments of the
descriptors before the failing one (so fields processed before the failure
keep their newly assigned values — no rollback), and the descriptors after
the failure are not processed. -/
theorem set_stops_at_first_failure
    (hook : Option (Params → Bool → Params × Bool)) (s : Params)
    (parms : CommandParameters) (pre post : List Parameter) (p : Parameter)
    (hpre : ∀ q ∈ pre, SetOneOK parms q = true)
    (hp : SetOneOK parms p = false) :
    DoSet hook s parms (pre ++ p :: post) = (false, SetList s parms pre) := by
  have h := SetAll_append_fail parms p hp pre s hpre post
  simp [DoSet, h]

/-- Witness for C1: defaults 0, bounds [0, 10]; field "A" reads 5 (valid,
assigned), field "B" reads 99 (out of bounds, fails), field "C" is never
processed; the result is false with only field 0 mutated. -/
theorem set_stops_at_first_failure_witness :
    (∀ q ∈ [Parameter.scalar ⟨0, "A", 0, 0, 10, 1⟩],
      SetOneOK [("A", ParamValue.num 5), ("B", ParamValue.num 99),
        ("C", ParamValue.num 7)] q = true) ∧
    SetOneOK [("A", ParamValue.num 5), ("B", ParamValue.num 99),
      ("C", ParamValue.num 7)] (Parameter.scalar ⟨1, "B", 0, 0, 10, 1⟩) =
      false ∧
    DoSet none [1, 2, 3]
      [("A", ParamValue.num 5), ("B", ParamValue.num 99),
        ("C", ParamValue.num 7)]
      ([Parameter.scalar ⟨0, "A", 0, 0, 10, 1⟩] ++
        Parameter.scalar ⟨1, "B", 0, 0, 10, 1⟩ ::
          [Parameter.scalar ⟨2, "C", 0, 0, 10, 1⟩]) =
      (false, SetList [1, 2, 3]
        [("A", ParamValue.num 5), ("B", ParamValue.num 99),
          ("C", ParamValue.num 7)]
        [Parameter.scalar ⟨0, "A", 0, 0, 10, 1⟩]) :=
  ⟨by decide, by decide,
    set_stops_at_first_failure none [1, 2, 3] _ _ _ _ (by decide) (by decide)⟩

/-- C2: a descriptor whose stored entry does not read-and-verify — a scalar
whose stored text does not parse as a number or lies outside `[min, max]`,
or an enum whose stored string matches no internal name — makes its
`SetOne` fail without touching the structure (the invalid value is never
stored), the read value falls back to the declared default, and the whole
`DoSet` returns false. -/
theorem set_invalid_never_stored
    (hook : Option (Params → Bool → Params × Bool)) (s : Params)
    (parms : CommandParameters) (ps : List Parameter) (p : Parameter)
    (hmem : p ∈ ps) (hinv : ParamInvalid parms p) :
    SetOne s parms p = (false, s) ∧ (ReadValue parms p).2 = p.def_ ∧
    (DoSet hook s parms ps).1 = false := by
  have hrv := ReadValue_invalid parms p hinv
  have hOK : SetOneOK parms p = false := by rw [SetOneOK_eq, hrv]
  exact ⟨SetOne_fail s parms p hOK, by rw [hrv],
    DoSet_fst_of_fail hook s parms ps p hmem hOK⟩

/-- Witness for C2: field "B" with bounds [0, 10] reads 99 from the store;
the read fails, the field keeps its prior value 2, the fallback is the
default 0, and Set fails overall. -/
theorem set_invalid_never_stored_witness :
    Parameter.scalar ⟨1, "B", 0, 0, 10, 1⟩ ∈
      [Parameter.scalar ⟨1, "B", 0, 0, 10, 1⟩] ∧
    ParamInvalid [("B", ParamValue.num 99)]
      (Parameter.scalar ⟨1, "B", 0, 0, 10, 1⟩) ∧
    (SetOne [1, 2] [("B", ParamValue.num 99)]
        (Parameter.scalar ⟨1, "B", 0, 0, 10, 1⟩) = (false, [1, 2]) ∧
      (ReadValue [("B", ParamValue.num 99)]
          (Parameter.scalar ⟨1, "B", 0, 0, 10, 1⟩)).2 =
        (Parameter.scalar ⟨1, "B", 0, 0, 10, 1⟩).def_ ∧
      (DoSet none [1, 2] [("B", ParamValue.num 99)]
          [Parameter.scalar ⟨1, "B", 0, 0, 10, 1⟩]).1 = false) :=
  ⟨by decide,
    fun v hv => by
      have hv' : 99 = v := by simpa [lookupKey] using hv
      subst hv'
      decide,
    set_invalid_never_stored none [1, 2] _ _ _ (by decide)
      (fun v hv => by
        have hv' : 99 = v := by simpa [lookupKey] using hv
        subst hv'
        decide)⟩

/-- C3: when every field of `Set` reads and validates successfully, the
overall result is the flag returned by the post-set function, invoked once
on the fully assigned structure with the update flag true; with no post-set
function the overall result is true. -/
theorem set_success_hook_result
    (hook : Option (Params → Bool → Params × Bool)) (s : Params)
    (parms : CommandParameters) (ps : List Parameter)
    (hall : ∀ p ∈ ps, SetOneOK parms p = true) :
    DoSet hook s parms ps =
      match hook with
      | none => (true, SetList s parms ps)
      | some f => ((f (SetList s parms ps) true).2,
          (f (SetList s parms ps) true).1) := by
  have h := SetAll_all_ok parms ps s hall
  cases hook <;> simp [DoSet, h]

/-- Witness for C3: field "A" reads 5 (valid); the hook rejects with false,
so Set returns false even though every field validated, and the hook sees
the assigned structure. -/
theorem set_success_hook_result_witness :
    (∀ p ∈ [Parameter.scalar ⟨0, "A", 0, 0, 10, 1⟩],
      SetOneOK [("A", ParamValue.num 5)] p = true) ∧
    DoSet (some fun t _ => (t, false)) [1] [("A", ParamValue.num 5)]
        [Parameter.scalar ⟨0, "A", 0, 0, 10, 1⟩] =
      ((((fun (t : Params) (_ : Bool) => (t, false))
          (SetList [1] [("A", ParamValue.num 5)]
            [Parameter.scalar ⟨0, "A", 0, 0, 10, 1⟩]) true).2),
        (((fun (t : Params) (_ : Bool) => (t, false))
          (SetList [1] [("A", ParamValue.num 5)]
            [Parameter.scalar ⟨0, "A", 0, 0, 10, 1⟩]) true).1)) :=
  ⟨by decide,
    set_success_hook_result (some fun t _ => (t, false)) [1] _ _ (by decide)⟩

/-- C4: when the effect accessor yields no owning structure, `Reset`,
`Visit` and `Get` are silent no-ops — effect, visitor state and store all
unchanged, no error — and `Set` returns false with the effect unchanged. -/
theorem missing_structure_noop {σ : Type} (cp : CapturedParameters)
    (e : Effect) (S : SettingsVisitor σ) (v : σ) (parms : CommandParameters)
    (h : e.params? = none) :
    Reset cp e = e ∧ Visit cp e S v = (e, v) ∧ Get cp e parms = some parms ∧
    Set cp e parms = (false, e) := by
  cases e with
  | mk op =>
    cases h
    exact ⟨rfl, rfl, rfl, rfl⟩

/-- Witness for C4: an effect whose accessor yields nothing, a trivial
visitor, an empty store. -/
theorem missing_structure_noop_witness :
    (Effect.mk none).params? = none ∧
    (Reset ⟨[], none⟩ ⟨none⟩ = ⟨none⟩ ∧
      Visit ⟨[], none⟩ ⟨none⟩
        ⟨fun u w _ _ _ _ _ => (u, w), fun u w _ _ _ _ => (u, w)⟩ () =
        (⟨none⟩, ()) ∧
      Get ⟨[], none⟩ ⟨none⟩ [] = some [] ∧
      Set ⟨[], none⟩ ⟨none⟩ [] = (false, ⟨none⟩)) :=
  ⟨rfl, missing_structure_noop ⟨[], none⟩ ⟨none⟩
    ⟨fun u w _ _ _ _ _ => (u, w), fun u w _ _ _ _ => (u, w)⟩ () [] rfl⟩

/-- C5: `DoGet` (an in-order fold of one `GetOne` per descriptor) leaves
exactly one entry in the store per descriptor under the descriptor's key —
scalar fields as their current values, enum fields as the symbol table's
internal name for the stored index (`writtenValue`) — overwriting
pre-existing entries under those keys, while entries under other keys are
untouched; the owning structure is only read (`DoGet` returns only the
store). -/
theorem get_one_entry_per_descriptor (s : Params) (ps : List Parameter)
    (parms : CommandParameters) (hkeys : (ps.map Parameter.key).Nodup)
    (hvalid : ∀ p ∈ ps, EnumValid s p = true) :
    ∃ st, DoGet s ps parms = some st ∧
      (∀ p ∈ ps, lookupKey st p.key = some (writtenValue s p) ∧
        countKey st p.key = 1) ∧
      (∀ k : String, (∀ p ∈ ps, p.key ≠ k) →
        lookupKey st k = lookupKey parms k) := by
  obtain ⟨st, hst⟩ := DoGet_isSome s ps parms hvalid
  exact ⟨st, hst, DoGet_lookup s ps parms st hkeys hvalid hst,
    fun k hk => (DoGet_frame s ps parms st hst k hk).1⟩

/-- Witness for C5: a scalar "Gain" holding 3 and an enum "Mode" holding
index 1 of ["Fast", "Slow"], serialized into a store that already holds a
stale "Gain" entry. -/
theorem get_one_entry_per_descriptor_witness :
    ([Parameter.scalar ⟨0, "Gain", 0, -24, 24, 1⟩,
        Parameter.enum ⟨1, "Mode", 0, [("Fast", "f"), ("Slow", "w")]⟩].map
      Parameter.key).Nodup ∧
    (∀ p ∈ [Parameter.scalar ⟨0, "Gain", 0, -24, 24, 1⟩,
        Parameter.enum ⟨1, "Mode", 0, [("Fast", "f"), ("Slow", "w")]⟩],
      EnumValid [3, 1] p = true) ∧
    ∃ st, DoGet [3, 1]
        [Parameter.scalar ⟨0, "Gain", 0, -24, 24, 1⟩,
          Parameter.enum ⟨1, "Mode", 0, [("Fast", "f"), ("Slow", "w")]⟩]
        [("Gain", ParamValue.num 99)] = some st ∧
      (∀ p ∈ [Parameter.scalar ⟨0, "Gain", 0, -24, 24, 1⟩,
          Parameter.enum ⟨1, "Mode", 0, [("Fast", "f"), ("Slow", "w")]⟩],
        lookupKey st p.key = some (writtenValue [3, 1] p) ∧
          countKey st p.key = 1) ∧
      (∀ k : String,
        (∀ p ∈ [Parameter.scalar ⟨0, "Gain", 0, -24, 24, 1⟩,
          Parameter.enum ⟨1, "Mode", 0, [("Fast", "f"), ("Slow", "w")]⟩],
          p.key ≠ k) →
        lookupKey st k = lookupKey [("Gain", ParamValue.num 99)] k) :=
  ⟨by decide, by decide,
    get_one_entry_per_descriptor [3, 1] _ _ (by decide) (by decide)⟩

/-- C6: `Reset` assigns every descriptor's declared default into its field
(in declaration order — `applyDefaults` is that fold), leaves every other
field unchanged, and then calls the post-set function, if configured,
exactly once with the update flag false, ignoring its returned flag; there
is no failure path (the result is always an effect, never an error). -/
theorem reset_assigns_defaults (cp : CapturedParameters) (e : Effect)
    (s : Params) (he : e.params? = some s)
    (hmems : (cp.Parameters.map Parameter.mem).Nodup)
    (hlen : ∀ p ∈ cp.Parameters, p.mem < s.length) :
    Reset cp e = { e with params? := some (match cp.PostSetFn with
        | none => applyDefaults cp.Parameters s
        | some f => (f (applyDefaults cp.Parameters s) false).1) } ∧
    (∀ p ∈ cp.Parameters,
      (applyDefaults cp.Parameters s).getD p.mem 0 = p.def_) ∧
    (∀ m : Nat, (∀ p ∈ cp.Parameters, p.mem ≠ m) →
      (applyDefaults cp.Parameters s).get? m = s.get? m) := by
  refine ⟨?_, ?_, ?_⟩
  · cases e with
    | mk op =>
      cases he
      rcases hpf : cp.PostSetFn with _ | f <;> simp [Reset, DoReset, hpf]
  · intro p hp
    have hld := lastDef?_of_nodup cp.Parameters p hp hmems
    have hg : (applyDefaults cp.Parameters s).get? p.mem = some p.def_ := by
      rw [applyDefaults_get?, hld]
      simp [hlen p hp]
    exact getD_of_get? _ _ _ _ hg
  · intro m hm
    rw [applyDefaults_get?, (lastDef?_eq_none cp.Parameters m).mpr hm]

/-- Witness for C6: resetting "Gain" (default 0) and "Mode" (default 0)
from the state [5, 1], with no post-set function. -/
theorem reset_assigns_defaults_witness :
    (Effect.mk (some [5, 1])).params? = some [5, 1] ∧
    ((CapturedParameters.mk
        [Parameter.scalar ⟨0, "Gain", 0, -24, 24, 1⟩,
          Parameter.enum ⟨1, "Mode", 0, [("Fast", "f"), ("Slow", "w")]⟩]
        none).Parameters.map Parameter.mem).Nodup ∧
    (∀ p ∈ (CapturedParameters.mk
        [Parameter.scalar ⟨0, "Gain", 0, -24, 24, 1⟩,
          Parameter.enum ⟨1, "Mode", 0, [("Fast", "f"), ("Slow", "w")]⟩]
        none).Parameters, p.mem < ([5, 1] : Params).length) ∧
    (Reset (CapturedParameters.mk
        [Parameter.scalar ⟨0, "Gain", 0, -24, 24, 1⟩,
          Parameter.enum ⟨1, "Mode", 0, [("Fast", "f"), ("Slow", "w")]⟩]
        none) ⟨some [5, 1]⟩ =
      ⟨some (applyDefaults
        [Parameter.scalar ⟨0, "Gain", 0, -24, 24, 1⟩,
          Parameter.enum ⟨1, "Mode", 0, [("Fast", "f"), ("Slow", "w")]⟩]
        [5, 1])⟩ ∧
    (∀ p ∈ (CapturedParameters.mk
        [Parameter.scalar ⟨0, "Gain", 0, -24, 24, 1⟩,
          Parameter.enum ⟨1, "Mode", 0, [("Fast", "f"), ("Slow", "w")]⟩]
        none).Parameters,
      (applyDefaults
        [Parameter.scalar ⟨0, "Gain", 0, -24, 24, 1⟩,
          Parameter.enum ⟨1, "Mode", 0, [("Fast", "f"), ("Slow", "w")]⟩]
        [5, 1]).getD p.mem 0 = p.def_) ∧
    (∀ m : Nat, (∀ p ∈ (CapturedParameters.mk
        [Parameter.scalar ⟨0, "Gain", 0, -24, 24, 1⟩,
          Parameter.enum ⟨1, "Mode", 0, [("Fast", "f"), ("Slow", "w")]⟩]
        none).Parameters, p.mem ≠ m) →
      (applyDefaults
        [Parameter.scalar ⟨0, "Gain", 0, -24, 24, 1⟩,
          Parameter.enum ⟨1, "Mode", 0, [("Fast", "f"), ("Slow", "w")]⟩]
        [5, 1]).get? m = ([5, 1] : Params).get? m)) :=
  ⟨rfl, by decide, by decide,
    reset_assigns_defaults _ ⟨some [5, 1]⟩ [5, 1] rfl (by decide) (by decide)⟩

/-- C9: the enum overload of `GetOne` indexes the symbol table directly
with the structure's stored integer, with no bounds check (`enumName?`
yields `none` exactly on the out-of-range access that is undefined in the
source); under the precondition that every stored enum value is a valid
index, `GetOne` never yields `none` and `DoGet`'s error branch is
unreachable. -/
theorem get_enum_indexing_in_bounds (s : Params) (ps : List Parameter)
    (parms : CommandParameters)
    (hvalid : ∀ p ∈ ps, EnumValid s p = true) :
    (∀ p ∈ ps, ∀ parms2 : CommandParameters,
      (GetOne s parms2 p).isSome = true) ∧
    ∃ st, DoGet s ps parms = some st :=
  ⟨fun p hp parms2 => by rw [GetOne_valid s parms2 p (hvalid p hp)]; rfl,
    DoGet_isSome s ps parms hvalid⟩

/-- Witness for C9: the stored value 1 is a valid index into the
two-symbol table of "Mode". -/
theorem get_enum_indexing_in_bounds_witness :
    (∀ p ∈ [Parameter.enum ⟨0, "Mode", 0, [("Fast", "f"), ("Slow", "w")]⟩],
      EnumValid [1] p = true) ∧
    ((∀ p ∈ [Parameter.enum ⟨0, "Mode", 0, [("Fast", "f"), ("Slow", "w")]⟩],
      ∀ parms2 : CommandParameters, (GetOne [1] parms2 p).isSome = true) ∧
    ∃ st, DoGet [1]
      [Parameter.enum ⟨0, "Mode", 0, [("Fast", "f"), ("Slow", "w")]⟩] [] =
      some st) :=
  ⟨by decide, get_enum_indexing_in_bounds [1] _ [] (by decide)⟩

/-- C10: when `Set` fails at a descriptor, that descriptor's field and the
fields of every descriptor after it keep exactly their prior values (only
fields of earlier descriptors may have changed), and the post-set function
is not invoked at all (the result does not depend on it).  Storage
locators are assumed distinct across descriptors, as in any well-formed
descriptor list. -/
theorem set_failure_frame (hook : Option (Params → Bool → Params × Bool))
    (s : Params) (parms : CommandParameters) (pre post : List Parameter)
    (p : Parameter) (hpre : ∀ q ∈ pre, SetOneOK parms q = true)
    (hp : SetOneOK parms p = false)
    (hdp : ∀ q ∈ pre, q.mem ≠ p.mem)
    (hdpost : ∀ r ∈ post, ∀ q ∈ pre, q.mem ≠ r.mem) :
    ((DoSet hook s parms (pre ++ p :: post)).2).get? p.mem =
      s.get? p.mem ∧
    (∀ r ∈ post, ((DoSet hook s parms (pre ++ p :: post)).2).get? r.mem =
      s.get? r.mem) ∧
    DoSet hook s parms (pre ++ p :: post) =
      DoSet none s parms (pre ++ p :: post) := by
  have h := SetAll_append_fail parms p hp pre s hpre post
  have hres : ∀ hk : Option (Params → Bool → Params × Bool),
      DoSet hk s parms (pre ++ p :: post) = (false, SetList s parms pre) := by
    intro hk
    simp [DoSet, h]
  refine ⟨?_, ?_, (hres hook).trans (hres none).symm⟩
  · rw [hres hook]
    exact SetList_get? parms p.mem pre s hdp
  · intro r hr
    rw [hres hook]
    exact SetList_get? parms r.mem pre s fun q hq => hdpost r hr q hq

/-- Witness for C10: "A" succeeds, "B" fails out of bounds; fields 1 ("B")
and 2 ("C") keep their prior values 2 and 3, and a configured hook is
never consulted. -/
theorem set_failure_frame_witness :
    (∀ q ∈ [Parameter.scalar ⟨0, "A", 0, 0, 10, 1⟩],
      SetOneOK [("A", ParamValue.num 5), ("B", ParamValue.num 99),
        ("C", ParamValue.num 7)] q = true) ∧
    SetOneOK [("A", ParamValue.num 5), ("B", ParamValue.num 99),
      ("C", ParamValue.num 7)] (Parameter.scalar ⟨1, "B", 0, 0, 10, 1⟩) =
      false ∧
    (((DoSet (some fun t _ => (t, false)) [1, 2, 3]
        [("A", ParamValue.num 5), ("B", ParamValue.num 99),
          ("C", ParamValue.num 7)]
        ([Parameter.scalar ⟨0, "A", 0, 0, 10, 1⟩] ++
          Parameter.scalar ⟨1, "B", 0, 0, 10, 1⟩ ::
            [Parameter.scalar ⟨2, "C", 0, 0, 10, 1⟩])).2).get?
        (Parameter.scalar ⟨1, "B", 0, 0, 10, 1⟩).mem =
      ([1, 2, 3] : Params).get?
        (Parameter.scalar ⟨1, "B", 0, 0, 10, 1⟩).mem ∧
    (∀ r ∈ [Parameter.scalar ⟨2, "C", 0, 0, 10, 1⟩],
      ((DoSet (some fun t _ => (t, false)) [1, 2, 3]
        [("A", ParamValue.num 5), ("B", ParamValue.num 99),
          ("C", ParamValue.num 7)]
        ([Parameter.scalar ⟨0, "A", 0, 0, 10, 1⟩] ++
          Parameter.scalar ⟨1, "B", 0, 0, 10, 1⟩ ::
            [Parameter.scalar ⟨2, "C", 0, 0, 10, 1⟩])).2).get? r.mem =
      ([1, 2, 3] : Params).get? r.mem) ∧
    DoSet (some fun t _ => (t, false)) [1, 2, 3]
        [("A", ParamValue.num 5), ("B", ParamValue.num 99),
          ("C", ParamValue.num 7)]
        ([Parameter.scalar ⟨0, "A", 0, 0, 10, 1⟩] ++
          Parameter.scalar ⟨1, "B", 0, 0, 10, 1⟩ ::
            [Parameter.scalar ⟨2, "C", 0, 0, 10, 1⟩]) =
      DoSet none [1, 2, 3]
        [("A", ParamValue.num 5), ("B", ParamValue.num 99),
          ("C", ParamValue.num 7)]
        ([Parameter.scalar ⟨0, "A", 0, 0, 10, 1⟩] ++
          Parameter.scalar ⟨1, "B", 0, 0, 10, 1⟩ ::
            [Parameter.scalar ⟨2, "C", 0, 0, 10, 1⟩])) :=
  ⟨by decide, by decide,
    set_failure_frame (some fun t _ => (t, false)) [1, 2, 3] _ _ _ _
      (by decide) (by decide) (by decide) (by decide)⟩

/-- C7 counterexample: with a configured post-set function (here one that
increments field 0), Get-then-Set from the produced store succeeds yet
changes the structure: the in-bounds value 5 round-trips through the store
but the hook then rewrites it to 6.  So Get-then-Set does not in general
leave the structure unchanged. -/
theorem get_set_roundtrip_counterexample :
    DoGet [5] [Parameter.scalar ⟨0, "Gain", 0, 0, 10, 1⟩] [] =
      some [("Gain", ParamValue.num 5)] ∧
    DoSet (some fun t _ => (t.set 0 (t.getD 0 0 + 1), true)) [5]
        [("Gain", ParamValue.num 5)]
        [Parameter.scalar ⟨0, "Gain", 0, 0, 10, 1⟩] = (true, [6]) ∧
    ([6] : Params) ≠ [5] :=
  ⟨rfl, rfl, by decide⟩

/-- C7 amended: when the descriptors' keys are pairwise distinct, every
enum symbol table has pairwise distinct internal names, every enum field
holds a valid index, every scalar field lies within its declared bounds,
and no post-set function is configured, performing Get into a store and
then Set from that same store succeeds and leaves the owning structure's
fields unchanged. -/
theorem get_set_roundtrip (s : Params) (ps : List Parameter)
    (parms : CommandParameters) (hkeys : (ps.map Parameter.key).Nodup)
    (hvalid : ∀ p ∈ ps, EnumValid s p = true)
    (hnames : ∀ p ∈ ps, SymbolsNodup p = true)
    (hbounds : ∀ p ∈ ps, InBounds s p = true) :
    ∃ st, DoGet s ps parms = some st ∧ DoSet none s st ps = (true, s) := by
  obtain ⟨st, hst⟩ := DoGet_isSome s ps parms hvalid
  have hlk := DoGet_lookup s ps parms st hkeys hvalid hst
  have hread : ∀ p ∈ ps, ReadValue st p = (true, s.getD p.mem 0) :=
    fun p hp => ReadValue_roundtrip s st p (hlk p hp).1 (hvalid p hp)
      (hnames p hp) (hbounds p hp)
  have hall := SetAll_roundtrip st ps s hread
  exact ⟨st, hst, by simp [DoSet, hall]⟩

/-- Witness for the amended C7: "Gain" in bounds at 3, "Mode" at valid
index 1, distinct keys, distinct internal names, no hook. -/
theorem get_set_roundtrip_witness :
    ([Parameter.scalar ⟨0, "Gain", 0, -24, 24, 1⟩,
        Parameter.enum ⟨1, "Mode", 0, [("Fast", "f"), ("Slow", "w")]⟩].map
      Parameter.key).Nodup ∧
    (∀ p ∈ [Parameter.scalar ⟨0, "Gain", 0, -24, 24, 1⟩,
        Parameter.enum ⟨1, "Mode", 0, [("Fast", "f"), ("Slow", "w")]⟩],
      EnumValid [3, 1] p = true) ∧
    (∀ p ∈ [Parameter.scalar ⟨0, "Gain", 0, -24, 24, 1⟩,
        Parameter.enum ⟨1, "Mode", 0, [("Fast", "f"), ("Slow", "w")]⟩],
      SymbolsNodup p = true) ∧
    (∀ p ∈ [Parameter.scalar ⟨0, "Gain", 0, -24, 24, 1⟩,
        Parameter.enum ⟨1, "Mode", 0, [("Fast", "f"), ("Slow", "w")]⟩],
      InBounds [3, 1] p = true) ∧
    ∃ st, DoGet [3, 1]
        [Parameter.scalar ⟨0, "Gain", 0, -24, 24, 1⟩,
          Parameter.enum ⟨1, "Mode", 0, [("Fast", "f"), ("Slow", "w")]⟩]
        [] = some st ∧
      DoSet none [3, 1] st
        [Parameter.scalar ⟨0, "Gain", 0, -24, 24, 1⟩,
          Parameter.enum ⟨1, "Mode", 0, [("Fast", "f"), ("Slow", "w")]⟩] =
        (true, [3, 1]) :=
  ⟨by decide, by decide, by decide, by decide,
    get_set_roundtrip [3, 1] _ [] (by decide) (by decide) (by decide)
      (by decide)⟩

/-- C8 counterexample: with a post-set function that is a deterministic
pure function of its arguments (here: increment field 1, which no
descriptor covers), two consecutive Resets differ from one: the first
yields field 1 = 1, the second field 1 = 2.  So Reset is not idempotent
for every deterministic hook. -/
theorem reset_idempotent_counterexample :
    Reset ⟨[Parameter.scalar ⟨0, "Gain", 0, 0, 10, 1⟩],
        some fun t _ => (t.set 1 (t.getD 1 0 + 1), true)⟩
      (Reset ⟨[Parameter.scalar ⟨0, "Gain", 0, 0, 10, 1⟩],
          some fun t _ => (t.set 1 (t.getD 1 0 + 1), true)⟩
        ⟨some [5, 0]⟩) ≠
    Reset ⟨[Parameter.scalar ⟨0, "Gain", 0, 0, 10, 1⟩],
        some fun t _ => (t.set 1 (t.getD 1 0 + 1), true)⟩
      ⟨some [5, 0]⟩ := by
  decide

/-- C8 amended: Reset is idempotent — two consecutive Resets produce the
same structure state as one — provided the post-set function (if
configured) preserves the structure's length and modifies only fields
covered by some descriptor's storage locator. -/
theorem reset_idempotent (cp : CapturedParameters) (e : Effect)
    (hf : ∀ f, cp.PostSetFn = some f → ∀ (t : Params) (b : Bool),
      ((f t b).1).length = t.length ∧
      (∀ m : Nat, (∀ p ∈ cp.Parameters, p.mem ≠ m) →
        ((f t b).1).get? m = t.get? m)) :
    Reset cp (Reset cp e) = Reset cp e := by
  cases e with
  | mk op =>
    cases op with
    | none => rfl
    | some s =>
      have hDo : DoReset cp.PostSetFn cp.Parameters
          (DoReset cp.PostSetFn cp.Parameters s) =
          DoReset cp.PostSetFn cp.Parameters s := by
        rcases hpf : cp.PostSetFn with _ | f
        · simp [DoReset, applyDefaults_idem]
        · have hc := hf f hpf
          have key : applyDefaults cp.Parameters
              ((f (applyDefaults cp.Parameters s) false).1) =
              applyDefaults cp.Parameters s := by
            apply List.ext_get?
            intro n
            rcases hrec : lastDef? cp.Parameters n with _ | d
            · have hnm := (lastDef?_eq_none cp.Parameters n).mp hrec
              rw [applyDefaults_get?, hrec]
              exact (hc (applyDefaults cp.Parameters s) false).2 n hnm
            · have hlen2 : ((f (applyDefaults cp.Parameters s) false).1).length
                  = s.length := by
                rw [(hc _ false).1, applyDefaults_length]
              rw [applyDefaults_get?, hrec, applyDefaults_get?, hrec, hlen2]
          simp [DoReset, hpf, key]
      show (⟨some (DoReset cp.PostSetFn cp.Parameters
          (DoReset cp.PostSetFn cp.Parameters s))⟩ : Effect) =
        ⟨some (DoReset cp.PostSetFn cp.Parameters s)⟩
      rw [hDo]

/-- Witness for the amended C8: a descriptor list with no post-set
function; the hook hypothesis holds vacuously. -/
theorem reset_idempotent_witness :
    (∀ f, (CapturedParameters.mk
        [Parameter.scalar ⟨0, "Gain", 0, 0, 10, 1⟩] none).PostSetFn =
          some f →
      ∀ (t : Params) (b : Bool), ((f t b).1).length = t.length ∧
        (∀ m : Nat, (∀ p ∈ (CapturedParameters.mk
            [Parameter.scalar ⟨0, "Gain", 0, 0, 10, 1⟩]
            none).Parameters, p.mem ≠ m) →
          ((f t b).1).get? m = t.get? m)) ∧
    Reset (CapturedParameters.mk
        [Parameter.scalar ⟨0, "Gain", 0, 0, 10, 1⟩] none)
      (Reset (CapturedParameters.mk
          [Parameter.scalar ⟨0, "Gain", 0, 0, 10, 1⟩] none) ⟨some [5]⟩) =
    Reset (CapturedParameters.mk
        [Parameter.scalar ⟨0, "Gain", 0, 0, 10, 1⟩] none) ⟨some [5]⟩ :=
  ⟨fun _f hf => Option.noConfusion hf,
    reset_idempotent (CapturedParameters.mk
        [Parameter.scalar ⟨0, "Gain", 0, 0, 10, 1⟩] none) ⟨some [5]⟩
      fun _f hf => Option.noConfusion hf⟩

end ShuttleAutomation
